import Mathlib

/-!
Verification development for the litevideo video-output core
(`litevideo/output/core.py`), centred on the `TimingGenerator` state
machine and the `Driver` / `VideoOutCore` stream wiring.

Modelling conventions.  Migen synchronous blocks are translated to an
explicit state type plus a pure step function computed from the pre-step
snapshot of every register; within one sync block Migen's
"last assignment wins" rule is reproduced by giving the later `If` the
outer position in the nested `if`.  Counters are modelled as unbounded
naturals: the hardware counters are fixed-width signals, but every field
of the geometry record fits its signal width by construction and the
counters reset to 0 on compare-match before ever reaching the width
boundary, so no wraparound other than the modelled one can occur from
reset.  Streams use the valid/ready handshake: a transfer happens exactly
on steps where both are asserted.
-/

/-- Frame geometry, the payload of `frame_parameter_layout` consumed by the
timing generator's `sink` (core.py lines 30-39 and 57). -/
structure Geom where
  hres : Nat
  hsync_start : Nat
  hsync_end : Nat
  hscan : Nat
  vres : Nat
  vsync_start : Nat
  vsync_end : Nat
  vscan : Nat
deriving DecidableEq

/-- The registers of `TimingGenerator` (core.py lines 62-67 plus the
registered outputs `source.hsync`, `source.vsync`, `source.last` assigned
in the sync block at lines 81-104). -/
structure TG where
  hcounter : Nat
  vcounter : Nat
  hactive : Bool
  vactive : Bool
  hsync : Bool
  vsync : Bool
  last : Bool
deriving DecidableEq

/-- Reset state: Migen signals reset to 0. -/
def TG.reset : TG := ⟨0, 0, false, false, false, false, false⟩

/-- Body of the synchronous block of `TimingGenerator` (core.py lines
81-104), executed on accepted steps (`sink.valid & source.ready`).  Every
comparison reads the pre-step snapshot `s`; where two `If`s assign the
same signal the textually later one wins, hence the later comparison is
the outermost `if` here. -/
def tgUpdate (g : Geom) (s : TG) : TG where
  hcounter := if s.hcounter = g.hscan then 0 else s.hcounter + 1
  vcounter :=
    if s.hcounter = g.hscan then
      (if s.vcounter = g.vscan then 0 else s.vcounter + 1)
    else s.vcounter
  hactive := if s.hcounter = g.hres then false
             else if s.hcounter = 0 then true else s.hactive
  vactive := if s.vcounter = g.vres then false
             else if s.vcounter = 0 then true else s.vactive
  hsync := if s.hcounter = g.hsync_end then false
           else if s.hcounter = g.hsync_start then true else s.hsync
  vsync := if s.vcounter = g.vsync_end then false
           else if s.vcounter = g.vsync_start then true else s.vsync
  last := decide (s.hcounter = g.hscan ∧ s.vcounter = g.vscan)

/-- One clock tick of `TimingGenerator`: the sync block runs only when
`sink.valid & source.ready` (core.py line 82); otherwise every register
holds its value. -/
def tgStep (g : Geom) (valid ready : Bool) (s : TG) : TG :=
  if valid && ready then tgUpdate g s else s

/-- Run of accepted steps from an arbitrary state. -/
def tgRunFrom (g : Geom) (s : TG) : Nat → TG
  | 0 => s
  | k + 1 => tgUpdate g (tgRunFrom g s k)

/-- Run of accepted steps from reset (geometry valid and downstream ready
on every step). -/
def tgRun (g : Geom) (k : Nat) : TG := tgRunFrom g TG.reset k

/-- Combinational `source.valid` (core.py lines 69-79): asserted whenever
the geometry token is valid, in both the active and the blanking branch. -/
def sourceValid (sinkValid : Bool) : Bool := sinkValid

/-- Combinational `source.de` (core.py lines 69-79): asserted when the
geometry token is valid and `active = hactive & vactive`. -/
def sourceDe (sinkValid : Bool) (s : TG) : Bool :=
  sinkValid && (s.hactive && s.vactive)

/-- Combinational `sink.ready` (core.py line 105):
`sink.ready.eq(source.ready & source.last)`. -/
def sinkReady (sourceReady : Bool) (s : TG) : Bool :=
  sourceReady && s.last

/-- Steps per line: `hcounter` visits `0 .. hscan` then wraps. -/
def hPeriod (g : Geom) : Nat := g.hscan + 1

/-- Lines per frame: `vcounter` visits `0 .. vscan` then wraps. -/
def vPeriod (g : Geom) : Nat := g.vscan + 1

/-- Steps per frame. -/
def frameLen (g : Geom) : Nat := hPeriod g * vPeriod g

/-- Position of a state inside the frame, counting steps in scan order. -/
def posOf (g : Geom) (s : TG) : Nat := s.vcounter * hPeriod g + s.hcounter

/-- Run of the timing generator under an explicit input trace: each entry
gives `(sink.valid, source.ready)` for one clock tick. -/
def tgRunIO (g : Geom) : List (Bool × Bool) → TG → TG
  | [], s => s
  | vr :: rest, s => tgRunIO g rest (tgStep g vr.1 vr.2 s)

/-- Number of accepted steps in an input trace. -/
def acceptedCount (l : List (Bool × Bool)) : Nat :=
  l.countP (fun vr => vr.1 && vr.2)

/-- Timing generator together with its geometry source, which holds the
current token until it is transferred (`sink.valid & sink.ready`) and in
continuous mode re-presents the same token when no new one is pending. -/
structure TGSys where
  tg : TG
  cur : Geom
  pending : List Geom
deriving DecidableEq

/-- One tick of the generator plus geometry source, downstream readiness
`r`.  The sink is always valid (continuous token); the token transfers
exactly when `sink.ready = source.ready & source.last` is high, and the
newly loaded geometry becomes visible only from the next tick on. -/
def sysStep (r : Bool) (s : TGSys) : TGSys :=
  let tg' := tgStep s.cur true r s.tg
  if r && s.tg.last then
    match s.pending with
    | [] => ⟨tg', s.cur, []⟩
    | gNew :: rest => ⟨tg', gNew, rest⟩
  else ⟨tg', s.cur, s.pending⟩

/-- Run of the generator-plus-source system over a readiness trace. -/
def sysRun : TGSys → List Bool → TGSys
  | s, [] => s
  | s, r :: rs => sysRun (sysStep r s) rs

/-- Holds when no step of the trace is a frame-boundary transfer step
(downstream ready while `source.last` is emitted). -/
def noBoundaryB : TGSys → List Bool → Bool
  | _, [] => true
  | s, r :: rs => !(r && s.tg.last) && noBoundaryB (sysStep r s) rs

/-- One pipeline register on a side signal (`self.sync.pix += next_de.eq(de)`
in core.py lines 165-172); a register resets to 0. -/
def sideDelay1 (sig : Nat → Bool) : Nat → Bool
  | 0 => false
  | t + 1 => sig t

/-- The side-signal shift register built by the loop at core.py lines
163-175: each iteration wraps one more register around the signal. -/
def sideDelayChain : Nat → (Nat → Bool) → (Nat → Bool)
  | 0, sig => sig
  | d + 1, sig => sideDelay1 (sideDelayChain d sig)

/-- Depth of the Driver's side-signal shift register (core.py lines
163-164): the sum of the declared latencies of the chroma upsampler and
of the YCbCr-to-RGB converter. -/
def driverSideDelayDepth (chromaLatency ycbcrLatency : Nat) : Nat :=
  chromaLatency + ycbcrLatency

/-! Stream-boundary wiring of `Driver` (core.py lines 138-158) and
`VideoOutCore` (core.py lines 208-244).  Each definition records, for one
producer endpoint, the ready signal it actually sees as wired. -/

/-- Ready seen by `fifo.source`: `fifo.source.connect(converter.sink)`
propagates the converter's sink ready (core.py line 140). -/
def driverFifoSourceReady (converterSinkReady : Bool) : Bool :=
  converterSinkReady

/-- Ready seen by the Driver's own sink producer:
`self.sink.connect(fifo.sink)` propagates the FIFO's ready (line 139). -/
def driverSinkReady (fifoSinkReady : Bool) : Bool := fifoSinkReady

/-- Ready seen by `converter.source`: hardwired to 1 (core.py line 141),
independent of the chroma upsampler's readiness. -/
def driverConverterSourceReady : Bool := true

/-- Ready seen by `ycbcr2rgb.source`: hardwired to 1 (core.py line 157). -/
def driverYcbcr2rgbSourceReady : Bool := true

/-- Ready seen by `chroma_upsampler.source`:
`chroma_upsampler.source.connect(ycbcr2rgb.sink)` propagates the
converter's sink ready (core.py line 156). -/
def driverChromaSourceReady (ycbcr2rgbSinkReady : Bool) : Bool :=
  ycbcr2rgbSinkReady

/-- Valid presented to `chroma_upsampler.sink`: driven by
`converter.source.de` (core.py line 148), so blanking elements are never
presented to the conversion stages. -/
def driverChromaSinkValid (converterSourceDe : Bool) : Bool :=
  converterSourceDe

/-- Ready seen by `fi.source`: `fi.source.ready.eq(vtg.timing.ready)`
(core.py line 225) — the address sequencer's sink ready is ignored. -/
def coreFiSourceReady (vtgTimingReady _intseqSinkReady : Bool) : Bool :=
  vtgTimingReady

/-- Ready seen by `intseq.source` (core.py line 230). -/
def coreIntseqSourceReady (dmaSinkReady : Bool) : Bool := dmaSinkReady

/-- Ready seen by `dma_reader.source` (core.py line 235). -/
def coreDmaSourceReady (castSinkReady : Bool) : Bool := castSinkReady

/-- Ready seen by `cast.source` (core.py line 240). -/
def coreCastSourceReady (vtgPixelsReady : Bool) : Bool := vtgPixelsReady

/-- A producer holding a queue of elements pops the head exactly on steps
where the ready it sees is asserted (and it has data, i.e. is valid). -/
def producerStep (q : List Nat) (readySeen : Bool) : List Nat :=
  if readySeen && !q.isEmpty then q.tail else q

/-- An element is dropped at a boundary on a step where the producer sees
ready (so it pops) while the actual consumer is not ready to accept. -/
def droppedAt (q : List Nat) (readySeen consumerReady : Bool) : Bool :=
  readySeen && !consumerReady && !q.isEmpty

/-- Modelled from the spec: the litex `StrideConverter` instantiated at
core.py lines 134-137 is not part of this repository's sources; per the
spec it consumes one packed word and emits `packFactor` sequential
single-pixel transfers, so its sink is ready exactly when it is idle or
handing out the last sub-element of the current word.  `st` is `none`
when idle and `some idx` while emitting sub-element `idx`. -/
def strideConverterSinkReady (packFactor : Nat) (st : Option Nat) : Bool :=
  match st with
  | none => true
  | some idx => decide (idx + 1 = packFactor)

/-- Attributes set by `TimingGenerator.__init__` (core.py lines 56-58). -/
def timingGeneratorEndpoints : List String := ["sink", "source"]

/-- `vtg` attributes referenced by `VideoOutCore` (core.py lines 215,
238-240, 243). -/
def videoOutCoreVtgEndpointsUsed : List String := ["timing", "pixels", "phy"]

/-- Number of constructor arguments accepted by `TimingGenerator.__init__`
besides `self` (core.py line 56). -/
def timingGeneratorInitParams : Nat := 0

/-- Number of constructor arguments passed at
`TimingGenerator(self.pack_factor)` (core.py line 206). -/
def videoOutCoreVtgArgs : Nat := 1

/-- Geometry of the spec's concrete scenario (section 8). -/
def g5 : Geom := ⟨4, 1, 2, 6, 2, 0, 1, 3⟩

/-- A small valid geometry used for counterexamples:
hres = 1, hscan = 1, vres = 1, vscan = 1, sync windows at 0. -/
def g4c : Geom := ⟨1, 0, 0, 1, 1, 0, 0, 1⟩

/-! Helper lemmas. -/

lemma tgRunFrom_front (g : Geom) (s : TG) (k : Nat) :
    tgRunFrom g s (k + 1) = tgRunFrom g (tgUpdate g s) k := by
  induction k with
  | zero => rfl
  | succ k ih =>
    show tgUpdate g (tgRunFrom g s (k + 1)) = tgUpdate g (tgRunFrom g (tgUpdate g s) k)
    rw [ih]

/-- C1: the timing state (hcounter, vcounter, hactive, vactive, hsync,
vsync, last) is updated only on accepted steps (geometry valid AND
downstream ready), every accepted step computing all comparisons and
increments from the same pre-step snapshot (`tgUpdate` reads only the
pre-step state `s`); on every non-accepted step all registers hold their
values, so any input trace ends in exactly the state reached by running
just its accepted steps: stalls lose no progress and resuming ready
continues where the generator left off. -/
theorem timing_regs_hold_when_not_accepted :
    (∀ (g : Geom) (valid ready : Bool) (s : TG),
        ¬(valid = true ∧ ready = true) → tgStep g valid ready s = s) ∧
    (∀ (g : Geom) (l : List (Bool × Bool)) (s : TG),
        tgRunIO g l s = tgRunFrom g s (acceptedCount l)) := by
  constructor
  · intro g valid ready s h
    cases valid <;> cases ready <;> simp_all [tgStep]
  · intro g l
    induction l with
    | nil => intro s; rfl
    | cons vr rest ih =>
      intro s
      show tgRunIO g rest (tgStep g vr.1 vr.2 s) = _
      rw [ih]
      by_cases h : (vr.1 && vr.2) = true
      · rw [show tgStep g vr.1 vr.2 s = tgUpdate g s from by simp [tgStep, h]]
        rw [← tgRunFrom_front]
        have : acceptedCount (vr :: rest) = acceptedCount rest + 1 := by
          simp [acceptedCount, List.countP_cons, h]
        rw [this]
      · rw [show tgStep g vr.1 vr.2 s = s from by simp [tgStep, h]]
        have : acceptedCount (vr :: rest) = acceptedCount rest := by
          simp [acceptedCount, List.countP_cons, h]
        rw [this]

/-- Witness for C1 at concrete inputs. -/
theorem timing_regs_hold_when_not_accepted_w :
    ¬((true : Bool) = true ∧ (false : Bool) = true) ∧
      tgStep g5 true false TG.reset = TG.reset := by
  refine ⟨by simp, ?_⟩
  exact timing_regs_hold_when_not_accepted.1 g5 true false TG.reset (by simp)

/-- C3: `sink.ready` toward the geometry source is asserted exactly on
steps where the generator emits the frame-boundary flag (`source.last`)
and the downstream is ready; a geometry change can therefore happen only
across such a step, and along any run containing no such step the
geometry in effect is one single constant value — a new FrameGeometry
takes effect only at a frame boundary. -/
theorem geometry_constant_within_frame :
    (∀ (r : Bool) (s : TG), sinkReady r s = (r && s.last)) ∧
    (∀ (r : Bool) (s : TGSys), (sysStep r s).cur ≠ s.cur → (r && s.tg.last) = true) ∧
    (∀ (s : TGSys) (rs : List Bool),
        noBoundaryB s rs = true → (sysRun s rs).cur = s.cur) := by
  refine ⟨fun r s => rfl, ?_, ?_⟩
  · intro r s h
    by_cases hb : (r && s.tg.last) = true
    · exact hb
    · exfalso
      apply h
      simp [sysStep, hb]
  · intro s rs
    induction rs generalizing s with
    | nil => intro _; rfl
    | cons r rs ih =>
      intro h
      have h1 : (r && s.tg.last) = false := by
        by_cases hb : (r && s.tg.last) = true
        · simp [noBoundaryB, hb] at h
        · simpa using hb
      have h2 : noBoundaryB (sysStep r s) rs = true := by
        simp [noBoundaryB, h1] at h
        exact h
      show (sysRun (sysStep r s) rs).cur = s.cur
      rw [ih (sysStep r s) h2]
      simp [sysStep, h1]

/-- Witness for C3 at concrete inputs. -/
theorem geometry_constant_within_frame_w :
    noBoundaryB ⟨TG.reset, g5, [g4c]⟩ [true, true] = true ∧
      (sysRun ⟨TG.reset, g5, [g4c]⟩ [true, true]).cur = g5 :=
  ⟨by decide, geometry_constant_within_frame.2.2 ⟨TG.reset, g5, [g4c]⟩ [true, true] (by decide)⟩

lemma sideDelayChain_shift (d : Nat) (sig : Nat → Bool) :
    ∀ t, d ≤ t → sideDelayChain d sig t = sig (t - d) := by
  induction d with
  | zero => intro t _; simp [sideDelayChain]
  | succ d ih =>
    intro t ht
    match t, ht with
    | u + 1, ht =>
      show sideDelayChain d sig u = sig (u + 1 - (d + 1))
      rw [ih u (by omega)]
      congr 1
      omega

/-- C7: the Driver delays the side signals through a shift register whose
depth is exactly the sum of the declared latencies of the chroma
upsampler and of the YCbCr-to-RGB stage; for that depth D the side-signal
value at the output on display-domain step t equals the value that was
valid at step t - D. -/
theorem driver_side_signal_alignment :
    ∀ (chromaLatency ycbcrLatency : Nat) (sig : Nat → Bool) (t : Nat),
      driverSideDelayDepth chromaLatency ycbcrLatency ≤ t →
      sideDelayChain (driverSideDelayDepth chromaLatency ycbcrLatency) sig t
        = sig (t - (chromaLatency + ycbcrLatency)) := by
  intro cl yl sig t ht
  exact sideDelayChain_shift (cl + yl) sig t ht

/-- Witness for C7 at concrete inputs. -/
theorem driver_side_signal_alignment_w :
    driverSideDelayDepth 1 2 ≤ 4 ∧
      sideDelayChain (driverSideDelayDepth 1 2) (fun t => decide (t = 1)) 4
        = (fun t => decide (t = 1)) (4 - (1 + 2)) :=
  ⟨by decide, driver_side_signal_alignment 1 2 (fun t => decide (t = 1)) 4 (by decide)⟩

lemma counters_le (g : Geom) : ∀ k,
    (tgRun g k).hcounter ≤ g.hscan ∧ (tgRun g k).vcounter ≤ g.vscan := by
  intro k
  induction k with
  | zero => exact ⟨Nat.zero_le _, Nat.zero_le _⟩
  | succ k ih =>
    obtain ⟨ih1, ih2⟩ := ih
    show (tgUpdate g (tgRun g k)).hcounter ≤ _ ∧ (tgUpdate g (tgRun g k)).vcounter ≤ _
    constructor
    · by_cases hh : (tgRun g k).hcounter = g.hscan <;> simp [tgUpdate, hh] <;> omega
    · by_cases hh : (tgRun g k).hcounter = g.hscan
      · by_cases hv : (tgRun g k).vcounter = g.vscan <;> simp [tgUpdate, hh, hv] <;> omega
      · simp [tgUpdate, hh]
        exact ih2

lemma frameLen_expand (g : Geom) :
    frameLen g = g.vscan * (g.hscan + 1) + g.hscan + 1 := by
  simp only [frameLen, hPeriod, vPeriod]
  ring

lemma posOf_step (g : Geom) (s : TG) (hh : s.hcounter ≤ g.hscan) (hv : s.vcounter ≤ g.vscan) :
    posOf g (tgUpdate g s) =
      if posOf g s + 1 = frameLen g then 0 else posOf g s + 1 := by
  have hfl := frameLen_expand g
  by_cases h1 : s.hcounter = g.hscan
  · by_cases h2 : s.vcounter = g.vscan
    · have hc : posOf g s + 1 = frameLen g := by
        simp only [posOf, hPeriod, h1, h2, hfl]
      rw [if_pos hc]
      simp [posOf, tgUpdate, h1, h2]
    · have e1 : (s.vcounter + 1) * (g.hscan + 1)
          = s.vcounter * (g.hscan + 1) + (g.hscan + 1) := by ring
      have m1 : (s.vcounter + 1) * (g.hscan + 1) ≤ g.vscan * (g.hscan + 1) :=
        Nat.mul_le_mul_right _ (by omega)
      have hc : ¬(posOf g s + 1 = frameLen g) := by
        simp only [posOf, hPeriod, h1, hfl]
        omega
      rw [if_neg hc]
      have eL : posOf g (tgUpdate g s) = (s.vcounter + 1) * (g.hscan + 1) := by
        simp [posOf, tgUpdate, h1, h2, hPeriod]
      have eR : posOf g s + 1 = s.vcounter * (g.hscan + 1) + (g.hscan + 1) := by
        simp only [posOf, hPeriod, h1]
        omega
      rw [eL, eR]
      omega
  · have hc : ¬(posOf g s + 1 = frameLen g) := by
      have m1 : (s.vcounter + 1) * (g.hscan + 1) ≤ (g.vscan + 1) * (g.hscan + 1) :=
        Nat.mul_le_mul_right _ (by omega)
      have e2 : (s.vcounter + 1) * (g.hscan + 1)
          = s.vcounter * (g.hscan + 1) + (g.hscan + 1) := by ring
      have e3 : (g.vscan + 1) * (g.hscan + 1)
          = g.vscan * (g.hscan + 1) + (g.hscan + 1) := by ring
      simp only [posOf, hPeriod, hfl]
      omega
    rw [if_neg hc]
    simp only [posOf, tgUpdate, if_neg h1, hPeriod]
    omega

lemma posOf_run (g : Geom) : ∀ k, k ≤ frameLen g →
    posOf g (tgRun g k) = if k = frameLen g then 0 else k := by
  intro k
  induction k with
  | zero =>
    intro _
    have hpos : 0 < frameLen g := Nat.mul_pos (Nat.succ_pos _) (Nat.succ_pos _)
    rw [if_neg (by omega)]
    simp [posOf, tgRun, tgRunFrom, TG.reset]
  | succ k ih =>
    intro hk
    have ihv := ih (by omega)
    rw [if_neg (by omega)] at ihv
    obtain ⟨hh, hv⟩ := counters_le g k
    show posOf g (tgUpdate g (tgRun g k)) = _
    rw [posOf_step g _ hh hv, ihv]

lemma pos_max_iff (g : Geom) (s : TG) (hh : s.hcounter ≤ g.hscan) (hv : s.vcounter ≤ g.vscan) :
    (s.hcounter = g.hscan ∧ s.vcounter = g.vscan) ↔ posOf g s + 1 = frameLen g := by
  have hfl := frameLen_expand g
  constructor
  · intro ⟨e1, e2⟩
    simp only [posOf, hPeriod, e1, e2, hfl]
  · intro he
    simp only [posOf, hPeriod, hfl] at he
    by_cases hveq : s.vcounter = g.vscan
    · have e : s.vcounter * (g.hscan + 1) = g.vscan * (g.hscan + 1) := by rw [hveq]
      exact ⟨by omega, hveq⟩
    · exfalso
      have m2 : (s.vcounter + 1) * (g.hscan + 1) ≤ g.vscan * (g.hscan + 1) :=
        Nat.mul_le_mul_right _ (by omega)
      have e2 : (s.vcounter + 1) * (g.hscan + 1)
          = s.vcounter * (g.hscan + 1) + (g.hscan + 1) := by ring
      omega

/-- C2: the frame-boundary flag `last` is computed on each accepted step
exactly from the pre-step counters: the value the step writes is true iff
the pre-step hcounter equals hscan and the pre-step vcounter equals
vscan, and false on every other accepted step; consequently, over the
frameLen-step frame from reset, the pulse occurs exactly once, on the
frame's final step. -/
theorem frame_boundary_pulse :
    (∀ (g : Geom) (s : TG),
        ((tgUpdate g s).last = true ↔ (s.hcounter = g.hscan ∧ s.vcounter = g.vscan))) ∧
    (∀ (g : Geom) (k : Nat), k + 1 ≤ frameLen g →
        ((tgRun g (k + 1)).last = true ↔ k + 1 = frameLen g)) := by
  constructor
  · intro g s
    simp [tgUpdate]
  · intro g k hk
    obtain ⟨hh, hv⟩ := counters_le g k
    have hpos := posOf_run g k (by omega)
    rw [if_neg (by omega)] at hpos
    have h1 : (tgRun g (k + 1)).last = true ↔
        ((tgRun g k).hcounter = g.hscan ∧ (tgRun g k).vcounter = g.vscan) := by
      show (tgUpdate g (tgRun g k)).last = true ↔ _
      simp [tgUpdate]
    rw [h1, pos_max_iff g _ hh hv, hpos]

/-- Witness for C2 at the concrete scenario geometry. -/
theorem frame_boundary_pulse_w :
    27 + 1 ≤ frameLen g5 ∧ ((tgRun g5 (27 + 1)).last = true ↔ 27 + 1 = frameLen g5) :=
  ⟨by decide, frame_boundary_pulse.2 g5 27 (by decide)⟩

lemma hactive_char (g : Geom) (hr1 : 1 ≤ g.hres) (hr2 : g.hres ≤ g.hscan) : ∀ k,
    (tgRun g k).hactive
      = decide (1 ≤ (tgRun g k).hcounter ∧ (tgRun g k).hcounter ≤ g.hres) := by
  intro k
  induction k with
  | zero => simp [tgRun, tgRunFrom, TG.reset]
  | succ k ih =>
    show (tgUpdate g (tgRun g k)).hactive
      = decide (1 ≤ (tgUpdate g (tgRun g k)).hcounter ∧ (tgUpdate g (tgRun g k)).hcounter ≤ g.hres)
    by_cases e1 : (tgRun g k).hcounter = g.hres
    · by_cases e2 : (tgRun g k).hcounter = g.hscan
      · simp only [tgUpdate, if_pos e1, if_pos e2]
        symm
        rw [decide_eq_false_iff_not]
        omega
      · simp only [tgUpdate, if_pos e1, if_neg e2]
        symm
        rw [decide_eq_false_iff_not]
        omega
    · by_cases e0 : (tgRun g k).hcounter = 0
      · have e2 : ¬((tgRun g k).hcounter = g.hscan) := by omega
        simp only [tgUpdate, if_neg e1, if_pos e0, if_neg e2]
        symm
        rw [decide_eq_true_eq]
        omega
      · by_cases e2 : (tgRun g k).hcounter = g.hscan
        · simp only [tgUpdate, if_neg e1, if_neg e0, if_pos e2]
          rw [ih, decide_eq_decide]
          omega
        · simp only [tgUpdate, if_neg e1, if_neg e0, if_neg e2]
          rw [ih, decide_eq_decide]
          omega

lemma vactive_char (g : Geom) (hv1 : 1 ≤ g.vres) (hv2 : g.vres ≤ g.vscan) : ∀ k,
    (tgRun g k).vactive
      = decide ((1 ≤ (tgRun g k).vcounter ∧ (tgRun g k).vcounter + 1 ≤ g.vres)
          ∨ ((tgRun g k).vcounter = 0 ∧ 1 ≤ (tgRun g k).hcounter)
          ∨ ((tgRun g k).vcounter = g.vres ∧ (tgRun g k).hcounter = 0)) := by
  intro k
  induction k with
  | zero => simp [tgRun, tgRunFrom, TG.reset]; omega
  | succ k ih =>
    show (tgUpdate g (tgRun g k)).vactive
      = decide ((1 ≤ (tgUpdate g (tgRun g k)).vcounter
            ∧ (tgUpdate g (tgRun g k)).vcounter + 1 ≤ g.vres)
          ∨ ((tgUpdate g (tgRun g k)).vcounter = 0
            ∧ 1 ≤ (tgUpdate g (tgRun g k)).hcounter)
          ∨ ((tgUpdate g (tgRun g k)).vcounter = g.vres
            ∧ (tgUpdate g (tgRun g k)).hcounter = 0))
    by_cases f1 : (tgRun g k).vcounter = g.vres
    · by_cases e2 : (tgRun g k).hcounter = g.hscan
      · by_cases f2 : (tgRun g k).vcounter = g.vscan
        · simp only [tgUpdate, if_pos f1, if_pos e2, if_pos f2]
          symm
          rw [decide_eq_false_iff_not]
          omega
        · simp only [tgUpdate, if_pos f1, if_pos e2, if_neg f2]
          symm
          rw [decide_eq_false_iff_not]
          omega
      · simp only [tgUpdate, if_pos f1, if_neg e2]
        symm
        rw [decide_eq_false_iff_not]
        omega
    · by_cases f0 : (tgRun g k).vcounter = 0
      · by_cases e2 : (tgRun g k).hcounter = g.hscan
        · have f2 : ¬((tgRun g k).vcounter = g.vscan) := by omega
          simp only [tgUpdate, if_neg f1, if_pos f0, if_pos e2, if_neg f2]
          symm
          rw [decide_eq_true_eq]
          try simp only [and_true, true_and]
          omega
        · simp only [tgUpdate, if_neg f1, if_pos f0, if_neg e2]
          symm
          rw [decide_eq_true_eq]
          omega
      · by_cases e2 : (tgRun g k).hcounter = g.hscan
        · by_cases f2 : (tgRun g k).vcounter = g.vscan
          · simp only [tgUpdate, if_neg f1, if_neg f0, if_pos e2, if_pos f2]
            rw [ih, decide_eq_decide]
            omega
          · simp only [tgUpdate, if_neg f1, if_neg f0, if_pos e2, if_neg f2]
            rw [ih, decide_eq_decide]
            try simp only [and_true, true_and]
            omega
        · simp only [tgUpdate, if_neg f1, if_neg f0, if_neg e2]
          rw [ih, decide_eq_decide]
          omega

lemma de_char (g : Geom) (hr1 : 1 ≤ g.hres) (hr2 : g.hres ≤ g.hscan)
    (hv1 : 1 ≤ g.vres) (hv2 : g.vres ≤ g.vscan) : ∀ k,
    sourceDe true (tgRun g k)
      = decide (1 ≤ (tgRun g k).hcounter ∧ (tgRun g k).hcounter ≤ g.hres
          ∧ (tgRun g k).vcounter < g.vres) := by
  intro k
  have ha := hactive_char g hr1 hr2 k
  have hv := vactive_char g hv1 hv2 k
  simp only [sourceDe, Bool.true_and, ha, hv, ← Bool.decide_and, decide_eq_decide]
  omega

/-- Number of steps among the first n accepted steps from reset on which
the output asserts `de` (geometry held valid throughout). -/
def countDe (g : Geom) (n : Nat) : Nat :=
  (List.range n).countP (fun k => sourceDe true (tgRun g k))

/-- Closed form for `countDe` as a function of the pre-step counters. -/
def countF (g : Geom) (h v : Nat) : Nat :=
  min v g.vres * g.hres + (if v < g.vres then min h (g.hres + 1) - 1 else 0)

lemma countF_step (g : Geom) (hr1 : 1 ≤ g.hres) (hr2 : g.hres ≤ g.hscan)
    (hv1 : 1 ≤ g.vres) (hv2 : g.vres ≤ g.vscan) (s : TG)
    (hh : s.hcounter ≤ g.hscan) (hv : s.vcounter ≤ g.vscan)
    (hnm : ¬(s.hcounter = g.hscan ∧ s.vcounter = g.vscan)) :
    countF g (tgUpdate g s).hcounter (tgUpdate g s).vcounter
      = countF g s.hcounter s.vcounter
        + (if 1 ≤ s.hcounter ∧ s.hcounter ≤ g.hres ∧ s.vcounter < g.vres
           then 1 else 0) := by
  have b1 : (s.vcounter + 1) * g.hres = s.vcounter * g.hres + g.hres := by ring
  have b2 : (g.vres + 1) * g.hres = g.vres * g.hres + g.hres := by ring
  by_cases fv : s.vcounter = g.vres
  · simp only [tgUpdate, countF, Nat.min_def, Nat.zero_mul]
    rw [fv]
    split_ifs <;> omega
  · simp only [tgUpdate, countF, Nat.min_def, Nat.zero_mul]
    split_ifs <;> omega

lemma countDe_succ (g : Geom) (n : Nat) :
    countDe g (n + 1)
      = countDe g n + (if sourceDe true (tgRun g n) = true then 1 else 0) := by
  simp [countDe, List.range_succ, List.countP_append, List.countP_cons]

lemma countDe_formula (g : Geom) (hr1 : 1 ≤ g.hres) (hr2 : g.hres ≤ g.hscan)
    (hv1 : 1 ≤ g.vres) (hv2 : g.vres ≤ g.vscan) : ∀ n, n < frameLen g →
    countDe g n = countF g (tgRun g n).hcounter (tgRun g n).vcounter := by
  intro n
  induction n with
  | zero =>
    intro _
    simp [countDe, countF, tgRun, tgRunFrom, TG.reset]
  | succ n ih =>
    intro hn
    have ihv := ih (by omega)
    have e : tgRun g (n + 1) = tgUpdate g (tgRun g n) := rfl
    obtain ⟨hh, hv⟩ := counters_le g n
    have hpn := posOf_run g n (by omega)
    rw [if_neg (by omega)] at hpn
    have hnm : ¬((tgRun g n).hcounter = g.hscan ∧ (tgRun g n).vcounter = g.vscan) := by
      rw [pos_max_iff g _ hh hv, hpn]
      omega
    rw [countDe_succ, ihv, e, countF_step g hr1 hr2 hv1 hv2 (tgRun g n) hh hv hnm]
    congr 1
    rw [de_char g hr1 hr2 hv1 hv2 n]
    simp [decide_eq_true_eq]

/-- C4 (amended): for every valid geometry with 0 < hres ≤ hscan and
0 < vres ≤ vscan, the data-enable flag is asserted only on steps whose
pre-step counters lie in [1,hres] x [0,vres) — the window is shifted by
one step in the horizontal direction relative to the counters because
hactive/vactive are registered flags — and over one full frame with the
downstream always ready it is asserted on exactly hres * vres steps. -/
theorem active_window_and_count (g : Geom) (hr1 : 1 ≤ g.hres)
    (hr2 : g.hres ≤ g.hscan) (hv1 : 1 ≤ g.vres) (hv2 : g.vres ≤ g.vscan) :
    (∀ k, sourceDe true (tgRun g k) = true →
        1 ≤ (tgRun g k).hcounter ∧ (tgRun g k).hcounter ≤ g.hres
          ∧ (tgRun g k).vcounter < g.vres) ∧
    countDe g (frameLen g) = g.hres * g.vres := by
  constructor
  · intro k hk
    rw [de_char g hr1 hr2 hv1 hv2 k] at hk
    exact of_decide_eq_true hk
  · have hpos : 0 < frameLen g := Nat.mul_pos (Nat.succ_pos _) (Nat.succ_pos _)
    obtain ⟨n, hn⟩ : ∃ n, frameLen g = n + 1 := ⟨frameLen g - 1, by omega⟩
    obtain ⟨hh, hv⟩ := counters_le g n
    have hpn := posOf_run g n (by omega)
    rw [if_neg (by omega)] at hpn
    have hbm : (tgRun g n).hcounter = g.hscan ∧ (tgRun g n).vcounter = g.vscan := by
      rw [pos_max_iff g _ hh hv, hpn]
      omega
    have hde : sourceDe true (tgRun g n) = false := by
      rw [de_char g hr1 hr2 hv1 hv2 n, hbm.1, hbm.2, decide_eq_false_iff_not]
      omega
    rw [hn, countDe_succ, countDe_formula g hr1 hr2 hv1 hv2 n (by omega), hde,
      hbm.1, hbm.2]
    simp only [countF, Bool.false_eq_true, if_false]
    rw [Nat.min_eq_right hv2, if_neg (by omega)]
    exact Nat.mul_comm _ _

/-- C4 counterexample: with hres = 1, hscan = 1, vres = 1, vscan = 1 the
data-enable flag is asserted on the step whose pre-step hcounter equals
hres, which lies outside the window [0,hres) x [0,vres) stated by the
claim. -/
theorem active_window_claim_false :
    sourceDe true (tgRun g4c 1) = true ∧ (tgRun g4c 1).hcounter = g4c.hres ∧
      ¬((tgRun g4c 1).hcounter < g4c.hres) := by decide

/-- Witness for C4 (amended) at the concrete scenario geometry. -/
theorem active_window_and_count_w :
    (1 ≤ g5.hres ∧ g5.hres ≤ g5.hscan ∧ 1 ≤ g5.vres ∧ g5.vres ≤ g5.vscan) ∧
      countDe g5 (frameLen g5) = g5.hres * g5.vres :=
  ⟨by decide,
   (active_window_and_count g5 (by decide) (by decide) (by decide) (by decide)).2⟩

/-- Geometry with hres = 0, used for the zero-resolution witness. -/
def g9 : Geom := ⟨0, 0, 0, 1, 1, 0, 0, 1⟩

lemma hactive_false_of_hres0 (g : Geom) (hg : g.hres = 0) :
    ∀ k, (tgRun g k).hactive = false := by
  intro k
  induction k with
  | zero => rfl
  | succ k ih =>
    show (tgUpdate g (tgRun g k)).hactive = false
    by_cases h0 : (tgRun g k).hcounter = 0
    · have hr : (tgRun g k).hcounter = g.hres := by omega
      simp only [tgUpdate, if_pos hr]
    · have hr : ¬((tgRun g k).hcounter = g.hres) := by omega
      simp only [tgUpdate, if_neg hr, if_neg h0]
      exact ih

lemma vactive_false_of_vres0 (g : Geom) (hg : g.vres = 0) :
    ∀ k, (tgRun g k).vactive = false := by
  intro k
  induction k with
  | zero => rfl
  | succ k ih =>
    show (tgUpdate g (tgRun g k)).vactive = false
    by_cases h0 : (tgRun g k).vcounter = 0
    · have hr : (tgRun g k).vcounter = g.vres := by omega
      simp only [tgUpdate, if_pos hr]
    · have hr : ¬((tgRun g k).vcounter = g.vres) := by omega
      simp only [tgUpdate, if_neg hr, if_neg h0]
      exact ih

/-- C9: with hres = 0 or vres = 0 the generator degenerates to an
all-blanking signal — the data-enable flag is never asserted on any step
— while the counters and the hsync/vsync/last outputs run exactly as they
do for any geometry agreeing on the scan totals and sync windows,
independently of hres and vres. -/
theorem zero_resolution_blanking :
    (∀ (g : Geom) (k : Nat), g.hres = 0 ∨ g.vres = 0 →
        sourceDe true (tgRun g k) = false) ∧
    (∀ (g₁ g₂ : Geom), g₁.hscan = g₂.hscan → g₁.vscan = g₂.vscan →
        g₁.hsync_start = g₂.hsync_start → g₁.hsync_end = g₂.hsync_end →
        g₁.vsync_start = g₂.vsync_start → g₁.vsync_end = g₂.vsync_end →
        ∀ k, (tgRun g₁ k).hcounter = (tgRun g₂ k).hcounter
          ∧ (tgRun g₁ k).vcounter = (tgRun g₂ k).vcounter
          ∧ (tgRun g₁ k).hsync = (tgRun g₂ k).hsync
          ∧ (tgRun g₁ k).vsync = (tgRun g₂ k).vsync
          ∧ (tgRun g₁ k).last = (tgRun g₂ k).last) := by
  constructor
  · intro g k hg
    rcases hg with hg | hg
    · simp [sourceDe, hactive_false_of_hres0 g hg k]
    · simp [sourceDe, vactive_false_of_vres0 g hg k]
  · intro g₁ g₂ e1 e2 e3 e4 e5 e6 k
    induction k with
    | zero => exact ⟨rfl, rfl, rfl, rfl, rfl⟩
    | succ k ih =>
      obtain ⟨i1, i2, i3, i4, i5⟩ := ih
      refine ⟨?_, ?_, ?_, ?_, ?_⟩ <;>
        simp only [show tgRun g₁ (k + 1) = tgUpdate g₁ (tgRun g₁ k) from rfl,
          show tgRun g₂ (k + 1) = tgUpdate g₂ (tgRun g₂ k) from rfl,
          tgUpdate, i1, i2, i3, i4, i5, e1, e2, e3, e4, e5, e6]

/-- Witness for C9 at a concrete zero-hres geometry. -/
theorem zero_resolution_blanking_w :
    (g9.hres = 0 ∨ g9.vres = 0) ∧ sourceDe true (tgRun g9 3) = false :=
  ⟨Or.inl rfl, zero_resolution_blanking.1 g9 3 (Or.inl rfl)⟩

/-- C5 counterexample: with the concrete scenario geometry the claim's
18-step frame with hactive on hcounter in [0,4), hsync on hcounter in
[1,2) and a boundary pulse at step 17 does not match the code: at step 0
the pre-step hcounter is 0 (inside [0,4)) yet hactive is low, at step 1
the pre-step hcounter is 1 (inside [1,2)) yet hsync is low, and no
frame-boundary pulse at all is produced by the first 18 steps. -/
theorem concrete_scenario_claim_false :
    (tgRun g5 0).hcounter = 0 ∧ (tgRun g5 0).hcounter < g5.hres ∧
      (tgRun g5 0).hactive = false ∧
      (tgRun g5 1).hcounter = 1 ∧ (tgRun g5 1).hsync = false ∧
      (List.range 18).countP (fun k => (tgRun g5 (k + 1)).last) = 0 := by decide

/-- C5 (amended): with geometry hres=4, hsyncStart=1, hsyncEnd=2,
hscan=6, vres=2, vsyncStart=0, vsyncEnd=1, vscan=3 and the downstream
always ready, a frame is (6+1)*(3+1) = 28 steps long; over those steps
hactive is asserted exactly where the pre-step hcounter is in [1,4],
hsync exactly where the pre-step hcounter equals 2, and exactly one
frame-boundary pulse is produced, computed on step 27 (0-indexed) and
visible on the registered last output at step 28, when the counters have
wrapped to (0,0). -/
theorem concrete_scenario_code :
    frameLen g5 = 28 ∧
    ((List.range 28).all fun k =>
        ((tgRun g5 k).hactive
            == decide (1 ≤ (tgRun g5 k).hcounter ∧ (tgRun g5 k).hcounter ≤ 4)) &&
        ((tgRun g5 k).hsync == ((tgRun g5 k).hcounter == 2))) = true ∧
    (List.range 28).countP (fun k => (tgRun g5 (k + 1)).last) = 1 ∧
    (tgRun g5 28).last = true ∧ (tgRun g5 28).hcounter = 0 ∧
    (tgRun g5 28).vcounter = 0 := by decide

/-- C6 (code-bug evidence): the `vtg` attributes referenced by
VideoOutCore (timing, pixels, phy) are none of the endpoints the
TimingGenerator class defines (sink, source), and VideoOutCore passes the
constructor one argument while `TimingGenerator.__init__` accepts none. -/
theorem vtg_interface_mismatch :
    (videoOutCoreVtgEndpointsUsed.all
        fun e => !(timingGeneratorEndpoints.contains e)) = true ∧
    (videoOutCoreVtgArgs == timingGeneratorInitParams) = false := by decide

/-- C8 counterexample: at the width converter's output boundary the ready
the producer sees is hardwired to 1 (core.py line 141), so on a step
where the consumer is not ready the held element is popped anyway — it is
dropped, contrary to the claim that at every stage boundary a not-ready
consumer makes the producer hold the element with no loss. -/
theorem backpressure_claim_false :
    droppedAt [0] driverConverterSourceReady false = true ∧
    producerStep [0] driverConverterSourceReady = [] := by decide

/-- C8 (amended): backpressure flows upstream via ready at the boundaries
driver-sink to FIFO, FIFO to width converter, chroma upsampler to color
converter, sequencer to memory reader, memory reader to caster, caster to
timing generator, and frame initiator to timing generator: whenever the
consumer is not ready the producer holds its element and nothing is
dropped.  But the width converter's output and the color converter's
output are consumed unconditionally (ready constant 1) regardless of
downstream readiness, and the frame initiator's ready ignores the address
sequencer entirely, so the no-drop guarantee does not hold at those
boundaries. -/
theorem backpressure_propagated_boundaries :
    (∀ (q : List Nat) (r : Bool), r = false →
        producerStep q (driverSinkReady r) = q ∧
        droppedAt q (driverSinkReady r) r = false ∧
        producerStep q (driverFifoSourceReady r) = q ∧
        droppedAt q (driverFifoSourceReady r) r = false ∧
        producerStep q (driverChromaSourceReady r) = q ∧
        droppedAt q (driverChromaSourceReady r) r = false ∧
        producerStep q (coreIntseqSourceReady r) = q ∧
        droppedAt q (coreIntseqSourceReady r) r = false ∧
        producerStep q (coreDmaSourceReady r) = q ∧
        droppedAt q (coreDmaSourceReady r) r = false ∧
        producerStep q (coreCastSourceReady r) = q ∧
        droppedAt q (coreCastSourceReady r) r = false) ∧
    driverConverterSourceReady = true ∧
    driverYcbcr2rgbSourceReady = true ∧
    (∀ vtgReady intseqReady : Bool,
        coreFiSourceReady vtgReady intseqReady = vtgReady) := by
  refine ⟨?_, rfl, rfl, fun _ _ => rfl⟩
  intro q r hr
  subst hr
  simp [producerStep, droppedAt, driverSinkReady, driverFifoSourceReady,
    driverChromaSourceReady, coreIntseqSourceReady, coreDmaSourceReady,
    coreCastSourceReady]

/-- Witness for C8 (amended) at concrete inputs. -/
theorem backpressure_propagated_boundaries_w :
    ((false : Bool) = false) ∧ producerStep [1] (driverSinkReady false) = [1] :=
  ⟨rfl, (backpressure_propagated_boundaries.1 [1] false rfl).1⟩

/-- C10 counterexample (spec-modelled width converter): while serializing
a packed word with packFactor = 2 the width converter's sink is not
ready, and that not-ready is exactly what the FIFO's source sees, so a
stage after the cross-domain FIFO does exert backpressure upstream. -/
theorem post_fifo_backpressure_exists :
    strideConverterSinkReady 2 (some 0) = false ∧
    driverFifoSourceReady (strideConverterSinkReady 2 (some 0)) = false := by
  decide

/-- C10 (amended): the conversion pipeline's input valid equals the width
converter's de flag, the width converter's and the color converter's
outputs are consumed unconditionally (ready constant 1), and an element
presented with de low is popped and discarded without entering the
conversion stages; no stage downstream of the width converter's output
exerts backpressure, though the width converter itself may stall the FIFO
while serializing a packed word. -/
theorem driver_unconditional_consumption :
    (∀ de : Bool, driverChromaSinkValid de = de) ∧
    driverConverterSourceReady = true ∧
    driverYcbcr2rgbSourceReady = true ∧
    (∀ q : List Nat, q ≠ [] →
        producerStep q driverConverterSourceReady = q.tail ∧
        driverChromaSinkValid false = false) := by
  refine ⟨fun _ => rfl, rfl, rfl, ?_⟩
  intro q hq
  refine ⟨?_, rfl⟩
  cases q with
  | nil => exact absurd rfl hq
  | cons a l => simp [producerStep, driverConverterSourceReady]

/-- Witness for C10 (amended) at concrete inputs. -/
theorem driver_unconditional_consumption_w :
    ([0] ≠ ([] : List Nat)) ∧ producerStep [0] driverConverterSourceReady = [] :=
  ⟨by decide, (driver_unconditional_consumption.2.2.2 [0] (by decide)).1⟩
